import Mathlib

/-!
Verification of the ESG portfolio-analytics repository (src/main.py and
src/update_data.py) against its natural-language specification.

Numeric model: Python/pandas floating-point scalars are embedded as exact
rationals (ℚ) for the purely field-arithmetic pipelines, and as real numbers
(ℝ) where the source takes fractional powers or square roots.  Where a
pandas operation produces NaN as an explicit "not available" marker the
embedding uses `Option`, with `none` for the marker.
-/

namespace ESG

/-! ## Weight pipeline (src/main.py lines 24-50, src/update_data.py lines 115-116) -/

/-- Sum of the weight values of an association list of (ticker, weight)
pairs; embeds Python `sum(weights.values())`. -/
def totalWeight (w : List (String × ℚ)) : ℚ :=
  (w.map Prod.snd).sum

/-- src/main.py line 30:
`weights = {k: v / sum(weights.values()) for k, v in weights.items()}` —
every raw weight is divided by the sum of ALL raw weights. -/
def normalizeAll (w : List (String × ℚ)) : List (String × ℚ) :=
  w.map fun p => (p.1, p.2 / totalWeight w)

/-- src/main.py line 48:
`weights = {k: v for k, v in weights.items() if k in data.columns}` —
keep only the tickers present in the usable-ticker set. -/
def filterUsable (w : List (String × ℚ)) (usable : List String) : List (String × ℚ) :=
  w.filter fun p => usable.contains p.1

/-- The weight vector main.py actually uses downstream (quantities, table):
line 30 normalization first, THEN the line 48 filter, with no renormalization
after the filter. -/
def mainWeights (w : List (String × ℚ)) (usable : List String) : List (String × ℚ) :=
  filterUsable (normalizeAll w) usable

/-- The spec's WeightNormalizer contract (spec §4.1), stated from the spec's
words for comparison with `mainWeights`: (a) filter to usable tickers first,
(c) then divide every remaining weight by the sum of the REMAINING weights. -/
def specWeights (w : List (String × ℚ)) (usable : List String) : List (String × ℚ) :=
  normalizeAll (filterUsable w usable)

/-! ## Horizon comparison (src/main.py lines 112-120) -/

/-- Python negative indexing `series.iloc[-days]` for `0 ≤ days ≤ len`:
`iloc[-0]` is `iloc[0]` (the first element), and for `days ≥ 1` the element
at position `len - days`.  The default value 0 is unreachable in the
in-bounds cases the theorems use (out of bounds, Python raises IndexError,
which is outside the modelled domain). -/
def pyNegIdx (s : List ℚ) (days : ℕ) : ℚ :=
  if days = 0 then s.getD 0 0 else s.getD (s.length - days) 0

/-- src/main.py lines 112-115:
```
def calc_return(series, days):
    if len(series) < days:
        return np.nan
    return ((series.iloc[-1] / series.iloc[-days]) - 1) * 100
```
`none` embeds the `np.nan` "not available" marker. -/
def calc_return (s : List ℚ) (days : ℕ) : Option ℚ :=
  if s.length < days then none
  else some ((pyNegIdx s 1 / pyNegIdx s days - 1) * 100)

/-- src/main.py line 118: the YTD horizon lookback
`(pd.Timestamp.today().dayofyear // 7) * 5`, as a function of the day of
the year (1-based). -/
def ytd_lookback (dayofyear : ℕ) : ℕ :=
  (dayofyear / 7) * 5

/-! ## Helper lemmas -/

theorem get?_eq_some_getD (l : List ℚ) (n : ℕ) (h : n < l.length) :
    l.get? n = some (l.getD n 0) := by
  rw [List.getD_eq_getElem?_getD, ← List.get?_eq_getElem?]
  rcases e : l.get? n with _ | v
  · exact absurd (List.get?_eq_none.mp e) (by omega)
  · rfl

theorem sum_map_div (l : List ℚ) (T : ℚ) : (l.map (· / T)).sum = l.sum / T := by
  induction l with
  | nil => simp
  | cons x xs ih => simp [ih, add_div]

theorem pyNegIdx_zero (s : List ℚ) : pyNegIdx s 0 = s.headD 0 := by
  cases s <;> simp [pyNegIdx]

theorem pyNegIdx_one (s : List ℚ) : pyNegIdx s 1 = s.getLastD 0 := by
  simp only [pyNegIdx, if_neg (by omega : (1:ℕ) ≠ 0)]
  rw [List.getLastD_eq_getLast?, List.getLast?_eq_getElem?, List.getD_eq_getElem?_getD]

/-! ## C1 -/

/-- C1 counterexample.  The claim states that the weight normalization
filters to usable tickers first and then divides by the sum of the
remaining weights, so that with raw weights {A: 3, B: 1} and only A usable,
A's weight becomes 1.0 and the vector sums to 1.0 within 1e-9.  On
src/main.py (lines 30 and 48) the division by the total happens BEFORE the
filter and nothing renormalizes afterwards: A's weight comes out as 3/4,
and the sum of the surviving weights misses 1.0 by 1/4, far beyond the
1e-9 tolerance. -/
theorem C1_cex :
    mainWeights [("A", 3), ("B", 1)] ["A"] = [("A", 3/4)] ∧
    |totalWeight (mainWeights [("A", 3), ("B", 1)] ["A"]) - 1| > 1/1000000000 := by
  have hsum : totalWeight (mainWeights [("A", 3), ("B", 1)] ["A"]) = 3/4 := by
    simp [mainWeights, normalizeAll, filterUsable, totalWeight]
    norm_num
  constructor
  · simp [mainWeights, normalizeAll, filterUsable, totalWeight]
    norm_num
  · rw [hsum, show (3:ℚ)/4 - 1 = -(1/4) by norm_num, abs_neg,
      abs_of_pos (by norm_num : (0:ℚ) < 1/4)]
    norm_num

/-- C1 amended: main.py divides every raw weight by the sum of ALL raw
weights (line 30) and only afterwards filters to the usable tickers
(line 48), with no renormalization after the filter.  Hence the surviving
weights sum to (sum of surviving raw weights) / (sum of all raw weights),
which equals 1 exactly when no ticker is dropped. -/
theorem C1_weights_amended (w : List (String × ℚ)) (usable : List String)
    (hT : totalWeight w ≠ 0) :
    totalWeight (mainWeights w usable) = totalWeight (filterUsable w usable) / totalWeight w ∧
    ((∀ p ∈ w, usable.contains p.1 = true) → totalWeight (mainWeights w usable) = 1) := by
  have key : totalWeight (mainWeights w usable) =
      totalWeight (filterUsable w usable) / totalWeight w := by
    have hswap : (normalizeAll w).filter (fun q => usable.contains q.1) =
        (w.filter (fun q => usable.contains q.1)).map
          (fun q => (q.1, q.2 / totalWeight w)) := by
      rw [normalizeAll, List.filter_map]
      rfl
    rw [mainWeights, filterUsable, hswap, totalWeight, List.map_map]
    have : (Prod.snd ∘ fun q : String × ℚ => (q.1, q.2 / totalWeight w)) =
        (fun q : String × ℚ => q.2 / totalWeight w) := rfl
    rw [this]
    have : (w.filter (fun q => usable.contains q.1)).map
          (fun q : String × ℚ => q.2 / totalWeight w) =
        ((w.filter (fun q => usable.contains q.1)).map Prod.snd).map (· / totalWeight w) := by
      rw [List.map_map]
      rfl
    rw [this, sum_map_div]
    rfl
  refine ⟨key, fun hall => ?_⟩
  have hfull : filterUsable w usable = w :=
    List.filter_eq_self.mpr hall
  rw [key, hfull, div_self hT]

/-- C1 amended claim holds on the counterexample universe once every ticker
is usable: with raw weights {A: 3, B: 1} and both A and B usable, the
main.py weight vector sums to exactly 1. -/
theorem C1_weights_amended_witness :
    totalWeight (mainWeights [("A", 3), ("B", 1)] ["A", "B"]) = 1 :=
  (C1_weights_amended [("A", 3), ("B", 1)] ["A", "B"] (by norm_num [totalWeight])).2
    (by decide)

/-! ## C2 -/

/-- C2 counterexample.  The claim states that the horizon comparison
returns the "not available" marker whenever lookback ≥ series length, and
otherwise the return (value[-1]/value[-1-lookback]) - 1.  src/main.py's
calc_return (lines 112-115) tests `len(series) < days`, so at
lookback = length = 2 on [1, 2] it returns the numeric value
(2/1 - 1)*100 = 100 instead of the marker; and its denominator is
series.iloc[-days] (not one further back), so on [1, 2, 4] with lookback 1
it returns (4/4 - 1)*100 = 0 where the claim's formula gives 4/2 - 1 = 1
(100 in percent scaling). -/
theorem C2_cex :
    calc_return [1, 2] 2 = some 100 ∧ calc_return [1, 2, 4] 1 = some 0 := by
  constructor
  · simp [calc_return, pyNegIdx]
    norm_num
  · simp [calc_return, pyNegIdx]

/-- C2 amended: calc_return returns the "not available" marker exactly when
lookback exceeds the series length (strictly), and otherwise the numeric
value ((value[-1] / value[-lookback]) - 1) * 100, whose lookback window
spans lookback - 1 periods (denominator at index length - lookback). -/
theorem C2_amended (s : List ℚ) (days : ℕ) (hs : s ≠ []) :
    (calc_return s days = none ↔ s.length < days) ∧
    (1 ≤ days → days ≤ s.length →
      ∃ last prev, s.get? (s.length - 1) = some last ∧
        s.get? (s.length - days) = some prev ∧
        calc_return s days = some ((last / prev - 1) * 100)) := by
  have hlen : 0 < s.length := List.length_pos.mpr hs
  constructor
  · rcases Nat.lt_or_ge s.length days with h | h
    · simp [calc_return, h]
    · simp [calc_return, Nat.not_lt.mpr h, h]
  · intro h1 h2
    refine ⟨s.getD (s.length - 1) 0, s.getD (s.length - days) 0,
      get?_eq_some_getD s (s.length - 1) (by omega),
      get?_eq_some_getD s (s.length - days) (by omega), ?_⟩
    have e1 : pyNegIdx s 1 = s.getD (s.length - 1) 0 := by
      rw [pyNegIdx, if_neg (by omega : (1:ℕ) ≠ 0)]
    have e2 : pyNegIdx s days = s.getD (s.length - days) 0 := by
      rw [pyNegIdx, if_neg (by omega : days ≠ 0)]
    rw [calc_return, if_neg (Nat.not_lt.mpr h2), e1, e2]

/-- C2 amended claim at a concrete input: series [1, 2, 4] with lookback 2
is long enough (2 ≤ 3), and calc_return yields ((4/2) - 1) * 100. -/
theorem C2_amended_witness :
    ∃ last prev, [(1:ℚ), 2, 4].get? 2 = some last ∧
      [(1:ℚ), 2, 4].get? 1 = some prev ∧
      calc_return [(1:ℚ), 2, 4] 2 = some ((last / prev - 1) * 100) :=
  (C2_amended [(1:ℚ), 2, 4] 2 (by simp)).2 (by norm_num) (by simp)

/-! ## C10 -/

/-- C10: on every non-empty series, calc_return with days = 0 skips the
guard (len < 0 never holds), reads iloc[-0] as the FIRST element, and
returns the since-inception percentage return
(value[-1]/value[0] - 1) * 100 — not 0 and not the "not available" marker;
and the YTD lookback (dayofyear // 7) * 5 of src/main.py line 118 is 0 on
the opening days of January (day of year 1 through 6), so this path is
reachable. -/
theorem C10_calc_return_zero (s : List ℚ) (_hs : s ≠ []) :
    calc_return s 0 = some ((s.getLastD 0 / s.headD 0 - 1) * 100) ∧
    (∀ d : ℕ, 1 ≤ d → d ≤ 6 → ytd_lookback d = 0 ∧
      calc_return s (ytd_lookback d) = some ((s.getLastD 0 / s.headD 0 - 1) * 100)) := by
  have hbase : calc_return s 0 = some ((s.getLastD 0 / s.headD 0 - 1) * 100) := by
    rw [calc_return, if_neg (by omega), pyNegIdx_one, pyNegIdx_zero]
  refine ⟨hbase, fun d h1 h6 => ?_⟩
  have hz : ytd_lookback d = 0 := by
    simp [ytd_lookback, Nat.div_eq_of_lt (by omega : d < 7)]
  rw [hz]
  exact ⟨rfl, hbase⟩

/-- C10 at a concrete input: on [100, 150], day of year 3 gives YTD
lookback 0 and calc_return returns the since-inception percentage return
(150/100 - 1) * 100 rather than the marker. -/
theorem C10_calc_return_zero_witness :
    calc_return [(100:ℚ), 150] 0 =
      some (([(100:ℚ), 150].getLastD 0 / [(100:ℚ), 150].headD 0 - 1) * 100) ∧
    ytd_lookback 3 = 0 :=
  ⟨(C10_calc_return_zero [(100:ℚ), 150] (by simp)).1,
    ((C10_calc_return_zero [(100:ℚ), 150] (by simp)).2 3 (by norm_num) (by norm_num)).1⟩

/-! ## Compounding (src/update_data.py lines 81, 117-122; src/main.py line 60) -/

/-- Daily simple returns `value[t]/value[t-1] - 1`; embeds pandas
`.pct_change().dropna()` on a value series (the leading NaN row is
dropped).  src/main.py line 60, src/update_data.py lines 117 and 121-122. -/
def pctChange (xs : List ℚ) : List ℚ :=
  List.zipWith (fun a b => b / a - 1) xs xs.tail

/-- Running products of `(1 + r)` with an accumulator: `cumprodAux acc rs`
lists the entries of pandas `(1 + rs).cumprod()` scaled by `acc`. -/
def cumprodAux (acc : ℚ) : List ℚ → List ℚ
  | [] => []
  | r :: rs => (acc * (1 + r)) :: cumprodAux (acc * (1 + r)) rs

/-- src/update_data.py lines 81 and 118: `(1 + returns).cumprod()`. -/
def cumprod (rs : List ℚ) : List ℚ := cumprodAux 1 rs

/-- Reconstruction of per-period returns from a CumulativeSeries via
`value[t]/value[t-1] - 1`, with the growth factor starting at 1
immediately before the first return (spec §3, CumulativeSeries). -/
def reconstructReturns (cs : List ℚ) : List ℚ := pctChange (1 :: cs)

theorem cumprodAux_get? (acc : ℚ) (rs : List ℚ) (t : ℕ) (ht : t < rs.length) :
    (cumprodAux acc rs).get? t =
      some (acc * ((rs.take (t + 1)).map (fun r => 1 + r)).prod) := by
  induction rs generalizing acc t with
  | nil => simp at ht
  | cons r rest ih =>
    cases t with
    | zero => simp [cumprodAux]
    | succ t =>
      have ht' : t < rest.length := by simpa using ht
      have : (cumprodAux acc (r :: rest)).get? (t + 1) =
          (cumprodAux (acc * (1 + r)) rest).get? t := rfl
      rw [this, ih (acc * (1 + r)) t ht']
      have : ((r :: rest).take (t + 1 + 1)).map (fun r => 1 + r) =
          (1 + r) :: ((rest.take (t + 1)).map (fun r => 1 + r)) := rfl
      rw [this, List.prod_cons]
      congr 1
      ring

theorem pctChange_cumprodAux (acc : ℚ) (rs : List ℚ) (hacc : acc ≠ 0)
    (h : ∀ r ∈ rs, 1 + r ≠ 0) :
    pctChange (acc :: cumprodAux acc rs) = rs := by
  induction rs generalizing acc with
  | nil => rfl
  | cons r rest ih =>
    have hr : 1 + r ≠ 0 := h r (by simp)
    have hmul : acc * (1 + r) ≠ 0 := mul_ne_zero hacc hr
    have hrest : ∀ x ∈ rest, 1 + x ≠ 0 := fun x hx => h x (by simp [hx])
    have hstep : pctChange (acc :: cumprodAux acc (r :: rest)) =
        (acc * (1 + r) / acc - 1) ::
          pctChange ((acc * (1 + r)) :: cumprodAux (acc * (1 + r)) rest) := rfl
    rw [hstep, ih (acc * (1 + r)) hmul hrest, mul_div_cancel_left₀ _ hacc]
    congr 1
    ring

/-- C8: the cumulative-series entry at each index t is the running product
(1+r_0)...(1+r_t), and reconstructing per-period returns from the
cumulative series via value[t]/value[t-1] - 1 (growth factor 1 before the
first return) reproduces the original return series exactly — in
particular within any floating tolerance. -/
theorem C8_compounder (rs : List ℚ) :
    (∀ t, t < rs.length →
      (cumprod rs).get? t = some (((rs.take (t + 1)).map (fun r => 1 + r)).prod)) ∧
    ((∀ r ∈ rs, 1 + r ≠ 0) → reconstructReturns (cumprod rs) = rs) := by
  constructor
  · intro t ht
    rw [cumprod, cumprodAux_get? 1 rs t ht, one_mul]
  · intro h
    rw [reconstructReturns, cumprod]
    exact pctChange_cumprodAux 1 rs one_ne_zero h

/-- C8 at the spec's concrete scenario, returns [0.10, -0.10]: the second
cumulative entry is the full product (1.10)(0.90), and the round trip
reproduces [0.10, -0.10] exactly. -/
theorem C8_compounder_witness :
    (cumprod [(1:ℚ)/10, -1/10]).get? 1 =
      some ((([(1:ℚ)/10, -1/10].take 2).map (fun r => 1 + r)).prod) ∧
    reconstructReturns (cumprod [(1:ℚ)/10, -1/10]) = [(1:ℚ)/10, -1/10] :=
  ⟨(C8_compounder [(1:ℚ)/10, -1/10]).1 1 (by norm_num),
   (C8_compounder [(1:ℚ)/10, -1/10]).2 (by
      intro r hr
      rcases List.mem_cons.mp hr with h | h
      · rw [h]; norm_num
      · rcases List.mem_cons.mp h with h' | h'
        · rw [h']; norm_num
        · simp at h')⟩

/-! ## Portfolio daily returns (src/main.py lines 55-60, src/update_data.py lines 115-118) -/

/-- Dot product of two aligned rows; embeds numpy/pandas `.dot`. -/
def dot (xs ys : List ℚ) : ℚ := (List.zipWith (· * ·) xs ys).sum

/-- src/update_data.py line 116: `weights / weights.sum()`. -/
def normalizeVec (v : List ℚ) : List ℚ := v.map (· / v.sum)

/-- Row-wise daily returns of a price matrix (rows are dates, columns are
tickers, aligned): embeds `data[tickers].pct_change().dropna()` in
src/update_data.py line 117. -/
def returnRows (data : List (List ℚ)) : List (List ℚ) :=
  List.zipWith (fun prev next => List.zipWith (fun a b => b / a - 1) prev next)
    data data.tail

/-- src/update_data.py lines 115-117: portfolio daily returns
`data[tickers].pct_change().dropna().dot(weights)` with the normalized
weights of line 116 — the same static weight vector every day. -/
def updatePortfolioReturns (data : List (List ℚ)) (rawWeights : List ℚ) : List ℚ :=
  (returnRows data).map (fun row => dot row (normalizeVec rawWeights))

/-- src/main.py line 56: share quantities
`(weights[t] * INITIAL_INVESTMENT) / first_prices[t]`. -/
def quantities (w firstPrices : List ℚ) (inv : ℚ) : List ℚ :=
  List.zipWith (fun wi p => wi * inv / p) w firstPrices

/-- src/main.py line 59: portfolio value per date — each date's price row
times the fixed share quantities, summed. -/
def portfolio_values (data : List (List ℚ)) (q : List ℚ) : List ℚ :=
  data.map (fun row => dot row q)

/-- src/main.py lines 55-60: portfolio daily returns as the pct-change of
the fixed-quantity (buy-and-hold) portfolio value. -/
def mainPortfolioReturns (data : List (List ℚ)) (w : List ℚ) (inv : ℚ) : List ℚ :=
  pctChange (portfolio_values data (quantities w (data.headD []) inv))

/-- C5 counterexample.  The claim states that with rebalancing disabled the
portfolio daily return at EVERY date is the dot product of that date's
return row with the fixed WeightVector (no buy-and-hold weight drift).
src/main.py (lines 55-60) instead holds share QUANTITIES fixed, so its
weights drift with prices: on the two-asset price matrix
[[1,1],[2,1],[2,2]] with weights (1/2, 1/2), main.py's day-2 portfolio
return is 1/3 while the static dot product of that day's return row with
the weight vector is 1/2. -/
theorem C5_cex :
    mainPortfolioReturns [[1, 1], [2, 1], [2, 2]] [1/2, 1/2] 1 ≠
      (returnRows [[1, 1], [2, 1], [2, 2]]).map (fun row => dot row [1/2, 1/2]) := by
  simp [mainPortfolioReturns, portfolio_values, quantities, pctChange, dot,
    returnRows, normalizeVec]
  norm_num

theorem pctChange_map_mul (xs : List ℚ) (c : ℚ) (hc : c ≠ 0) :
    pctChange (xs.map (fun x => x * c)) = pctChange xs := by
  induction xs with
  | nil => rfl
  | cons x xs ih =>
    cases xs with
    | nil => rfl
    | cons y ys =>
      have h1 : pctChange ((x :: y :: ys).map (fun x => x * c)) =
          (y * c / (x * c) - 1) :: pctChange ((y :: ys).map (fun x => x * c)) := rfl
      have h2 : pctChange (x :: y :: ys) = (y / x - 1) :: pctChange (y :: ys) := rfl
      rw [h1, h2, ih, mul_div_mul_right _ _ hc]

theorem updateSingle (prices : List ℚ) (w : ℚ) (hw : w ≠ 0) :
    updatePortfolioReturns (prices.map (fun p => [p])) [w] = pctChange prices := by
  have hnv : normalizeVec [w] = [1] := by
    simp [normalizeVec, div_self hw]
  unfold updatePortfolioReturns
  rw [hnv]
  have hdot : ∀ r : ℚ, dot [r] [1] = r := fun r => by simp [dot]
  induction prices with
  | nil => rfl
  | cons x xs ih =>
    cases xs with
    | nil => rfl
    | cons y ys =>
      calc (returnRows ((x :: y :: ys).map (fun p => [p]))).map (fun row => dot row [1])
          = dot [y / x - 1] [1] ::
            (returnRows ((y :: ys).map (fun p => [p]))).map (fun row => dot row [1]) := rfl
        _ = (y / x - 1) :: pctChange (y :: ys) := by rw [hdot, ih]
        _ = pctChange (x :: y :: ys) := rfl

theorem mainSingle (prices : List ℚ) (inv : ℚ) (hinv : inv ≠ 0)
    (hp0 : prices.headD 0 ≠ 0) :
    mainPortfolioReturns (prices.map (fun p => [p])) [1] inv = pctChange prices := by
  cases prices with
  | nil => simp at hp0
  | cons p0 rest =>
    have hp0' : p0 ≠ 0 := by simpa using hp0
    have hq : quantities [1] (((p0 :: rest).map (fun p => [p])).headD []) inv
        = [inv / p0] := by
      simp [quantities]
    have hpv : portfolio_values ((p0 :: rest).map (fun p => [p])) [inv / p0] =
        (p0 :: rest).map (fun p => p * (inv / p0)) := by
      simp [portfolio_values, dot, List.map_map]
    rw [mainPortfolioReturns, hq, hpv, pctChange_map_mul _ _ (div_ne_zero hinv hp0')]

/-- C5 amended: src/update_data.py's portfolio return is the static
dot-product portfolio (same normalized weight vector every date), while
src/main.py's is the pct-change of a fixed-quantity buy-and-hold value,
which drifts away from the static dot product when assets move apart; the
two agree in the single-asset case, where both reproduce the asset's raw
return series exactly (weight 1.0 after normalization). -/
theorem C5_amended (prices : List ℚ) (w inv : ℚ) (hw : w ≠ 0) (hinv : inv ≠ 0)
    (hp0 : prices.headD 0 ≠ 0) :
    updatePortfolioReturns (prices.map (fun p => [p])) [w] = pctChange prices ∧
    mainPortfolioReturns (prices.map (fun p => [p])) [1] inv = pctChange prices :=
  ⟨updateSingle prices w hw, mainSingle prices inv hinv hp0⟩

/-- C5 amended claim at the spec's concrete scenario, prices [100,110,99]
with a single asset: both pipelines reproduce the raw return series
[0.10, -0.10]. -/
theorem C5_amended_witness :
    (updatePortfolioReturns ([(100:ℚ), 110, 99].map (fun p => [p])) [2] =
        pctChange [(100:ℚ), 110, 99] ∧
      mainPortfolioReturns ([(100:ℚ), 110, 99].map (fun p => [p])) [1] 100000 =
        pctChange [(100:ℚ), 110, 99]) ∧
    pctChange [(100:ℚ), 110, 99] = [1/10, -1/10] :=
  ⟨C5_amended [100, 110, 99] 2 100000 (by norm_num) (by norm_num) (by norm_num),
   by simp [pctChange]; norm_num⟩

/-! ## Max drawdown (src/main.py line 95, src/update_data.py line 84) -/

/-- Running maximum continuation: `runningMaxAux m l` is the tail of the
pandas `cummax` of a series whose prefix maximum so far is `m`. -/
def runningMaxAux (m : ℚ) : List ℚ → List ℚ
  | [] => []
  | x :: xs => max m x :: runningMaxAux (max m x) xs

/-- pandas `.cummax()` / `np.maximum.accumulate`. -/
def runningMax : List ℚ → List ℚ
  | [] => []
  | x :: xs => x :: runningMaxAux x xs

/-- Drawdown continuation: entrywise `g / runningMax - 1` against a prefix
maximum `m`. -/
def ddAux (m : ℚ) (l : List ℚ) : List ℚ :=
  List.zipWith (fun g mx => g / mx - 1) l (runningMaxAux m l)

/-- src/main.py line 171 / line 95 inner expression:
`(values / values.cummax()) - 1`, entrywise. -/
def drawdownList (gfs : List ℚ) : List ℚ :=
  List.zipWith (fun g mx => g / mx - 1) gfs (runningMax gfs)

/-- pandas `.min()` of a series (the empty case, where pandas yields NaN,
is outside the domain of the theorems below). -/
def listMin : List ℚ → ℚ
  | [] => 0
  | x :: xs => xs.foldl min x

/-- src/main.py line 95 and src/update_data.py line 84:
`((values / values.cummax()) - 1).min()`. -/
def maxDrawdown (gfs : List ℚ) : ℚ := listMin (drawdownList gfs)

theorem foldl_min_le (a : ℚ) (l : List ℚ) : l.foldl min a ≤ a := by
  induction l generalizing a with
  | nil => exact le_refl a
  | cons x xs ih => exact le_trans (ih (min a x)) (min_le_left a x)

theorem foldl_min_le_mem (x : ℚ) (l : List ℚ) : ∀ a : ℚ, x ∈ l → l.foldl min a ≤ x := by
  induction l with
  | nil => intro a hx; simp at hx
  | cons y ys ih =>
    intro a hx
    show ys.foldl min (min a y) ≤ x
    rcases List.mem_cons.mp hx with rfl | hmem
    · exact le_trans (foldl_min_le (min a x) ys) (min_le_right a x)
    · exact ih (min a y) hmem

theorem foldl_min_of_le (l : List ℚ) : ∀ a : ℚ, (∀ x ∈ l, a ≤ x) → l.foldl min a = a := by
  induction l with
  | nil => intro a _; rfl
  | cons y ys ih =>
    intro a h
    show ys.foldl min (min a y) = a
    rw [min_eq_left (h y (by simp))]
    exact ih a (fun x hx => h x (by simp [hx]))

theorem foldl_min_eq_iff (a : ℚ) (l : List ℚ) :
    l.foldl min a = a ↔ ∀ x ∈ l, a ≤ x := by
  constructor
  · intro h x hx
    calc a = l.foldl min a := h.symm
      _ ≤ x := foldl_min_le_mem x l a hx
  · exact foldl_min_of_le l a

theorem ddAux_nonneg_iff (l : List ℚ) :
    ∀ m : ℚ, 0 < m → (∀ x ∈ l, 0 < x) →
      ((∀ y ∈ ddAux m l, 0 ≤ y) ↔ List.Chain (· ≤ ·) m l) := by
  induction l with
  | nil =>
    intro m _ _
    simp [ddAux]
  | cons x xs ih =>
    intro m hm hl
    have hx : 0 < x := hl x (by simp)
    have hxs : ∀ z ∈ xs, 0 < z := fun z hz => hl z (by simp [hz])
    by_cases hmx : m ≤ x
    · have hmax : max m x = x := max_eq_right hmx
      have hunfold : ddAux m (x :: xs) = (x / x - 1) :: ddAux x xs := by
        show (x / max m x - 1) :: ddAux (max m x) xs = _
        rw [hmax]
      rw [hunfold, div_self (ne_of_gt hx), sub_self, List.chain_cons]
      constructor
      · intro h
        exact ⟨hmx, (ih x hx hxs).mp (fun y hy => h y (by simp [hy]))⟩
      · intro h y hy
        rcases List.mem_cons.mp hy with rfl | hmem
        · exact le_refl 0
        · exact ((ih x hx hxs).mpr h.2) y hmem
    · have hxm : x < m := lt_of_not_le hmx
      have hmax : max m x = m := max_eq_left (le_of_lt hxm)
      have hunfold : ddAux m (x :: xs) = (x / m - 1) :: ddAux m xs := by
        show (x / max m x - 1) :: ddAux (max m x) xs = _
        rw [hmax]
      rw [hunfold, List.chain_cons]
      have hhead : x / m - 1 < 0 := by
        have : x / m < 1 := (div_lt_one hm).mpr hxm
        linarith
      constructor
      · intro h
        exact absurd (h _ (by simp)) (not_le.mpr hhead)
      · intro h
        exact absurd h.1 hmx

/-- C6: for every non-empty cumulative series of positive growth factors
(the invariant CumulativeSeries inherits from a positive PriceMatrix), the
max drawdown min over t of growth[t]/runningMax(growth[0..t]) - 1 is
always ≤ 0, and equals exactly 0 if and only if the series is
non-decreasing throughout. -/
theorem C6_max_drawdown (gfs : List ℚ) (hne : gfs ≠ []) (hpos : ∀ x ∈ gfs, 0 < x) :
    maxDrawdown gfs ≤ 0 ∧ (maxDrawdown gfs = 0 ↔ List.Chain' (· ≤ ·) gfs) := by
  cases gfs with
  | nil => exact absurd rfl hne
  | cons g rest =>
    have hg : 0 < g := hpos g (by simp)
    have hrest : ∀ x ∈ rest, 0 < x := fun x hx => hpos x (by simp [hx])
    have hdd : drawdownList (g :: rest) = 0 :: ddAux g rest := by
      show (g / g - 1) :: ddAux g rest = 0 :: ddAux g rest
      rw [div_self (ne_of_gt hg), sub_self]
    have hmd : maxDrawdown (g :: rest) = (ddAux g rest).foldl min 0 := by
      rw [maxDrawdown, hdd]
      rfl
    constructor
    · rw [hmd]
      exact foldl_min_le 0 (ddAux g rest)
    · rw [hmd]
      have h3 : List.Chain' (· ≤ ·) (g :: rest) ↔ List.Chain (· ≤ ·) g rest := Iff.rfl
      rw [foldl_min_eq_iff, h3, ← ddAux_nonneg_iff rest g hg hrest]

/-- C6 at the spec's concrete scenario, cumulative series [1.10, 0.99]:
its max drawdown is ≤ 0, and is 0 exactly when the series is
non-decreasing (it is not: the actual value is -0.10). -/
theorem C6_max_drawdown_witness :
    maxDrawdown [(11:ℚ)/10, 99/100] ≤ 0 ∧
    (maxDrawdown [(11:ℚ)/10, 99/100] = 0 ↔
      List.Chain' (· ≤ ·) [(11:ℚ)/10, 99/100]) :=
  C6_max_drawdown [(11:ℚ)/10, 99/100] (by simp)
    (by intro x hx; fin_cases hx <;> norm_num)

/-! ## Live-price fetching (src/update_data.py lines 34-48) -/

/-- Outcome of one yfinance download attempt for a ticker: a last adjusted
close price, an empty frame, or a raised exception. -/
inductive FetchOutcome
  | price (p : ℚ)
  | emptyData
  | raised

/-- src/update_data.py lines 38-47, the per-ticker body of
fetch_live_prices: the last Adj Close on success, and the NUMBER 0 both
when the frame comes back empty and when the download raises. -/
def fetchOne : FetchOutcome → ℚ
  | .price p => p
  | .emptyData => 0
  | .raised => 0

/-- src/update_data.py lines 34-48: `fetch_live_prices(tickers)` as the
results mapping, given an oracle describing each ticker's download
outcome. -/
def fetch_live_prices (oracle : String → FetchOutcome) (tickers : List String) :
    List (String × ℚ) :=
  tickers.map fun t => (t, fetchOne (oracle t))

/-- The same oracle with every failed or empty download replaced by a
SUCCESSFUL download whose price is literally 0. -/
def zeroOnFailure (oracle : String → FetchOutcome) : String → FetchOutcome :=
  fun t => match oracle t with
    | .price p => .price p
    | .emptyData => .price 0
    | .raised => .price 0

/-- C9: every ticker whose download raises or comes back empty is recorded
in the result mapping as the numeric value 0 (not a marker or an error),
and the whole result mapping is identical to the one produced when every
failure is replaced by an actual price of zero — a failed fetch is
indistinguishable from a zero price. -/
theorem C9_fetch (oracle : String → FetchOutcome) (tickers : List String) :
    (∀ t ∈ tickers, (oracle t = .emptyData ∨ oracle t = .raised) →
      (fetch_live_prices oracle tickers).lookup t = some 0) ∧
    fetch_live_prices oracle tickers = fetch_live_prices (zeroOnFailure oracle) tickers := by
  constructor
  · intro t ht hout
    have hval : fetchOne (oracle t) = 0 := by
      rcases hout with h | h <;> rw [h] <;> rfl
    induction tickers with
    | nil => simp at ht
    | cons u us ih =>
      by_cases heq : t = u
      · subst heq
        simp [fetch_live_prices, List.lookup, hval]
      · have hmem : t ∈ us := by
          rcases List.mem_cons.mp ht with h | h
          · exact absurd h heq
          · exact h
        have hbeq : (t == u) = false := beq_eq_false_iff_ne.mpr heq
        show List.lookup t ((u, fetchOne (oracle u)) :: fetch_live_prices oracle us) = some 0
        rw [List.lookup_cons]
        simp only [hbeq]
        exact ih hmem
  · unfold fetch_live_prices
    apply List.map_congr_left
    intro t _
    cases h : oracle t <;> simp [zeroOnFailure, fetchOne, h]

/-- A concrete outcome oracle: SNOW's download raises, ICLN's frame comes
back empty, every other ticker fetches at price 7. -/
def oracleW : String → FetchOutcome :=
  fun t => if t = "SNOW" then .raised else if t = "ICLN" then .emptyData else .price 7

/-- C9 at a concrete input: with SNOW raising and ICLN empty, the result
mapping records 0 for SNOW and is identical to the mapping of an oracle
that actually returns price 0 for both. -/
theorem C9_fetch_witness :
    (fetch_live_prices oracleW ["SNOW", "ICLN", "NVDA"]).lookup "SNOW" = some 0 ∧
    fetch_live_prices oracleW ["SNOW", "ICLN", "NVDA"] =
      fetch_live_prices (zeroOnFailure oracleW) ["SNOW", "ICLN", "NVDA"] :=
  ⟨(C9_fetch oracleW ["SNOW", "ICLN", "NVDA"]).1 "SNOW" (by simp)
      (Or.inr (by simp [oracleW])),
   (C9_fetch oracleW ["SNOW", "ICLN", "NVDA"]).2⟩

/-! ## Real-valued metrics (src/main.py lines 92-95, 163-166;
src/update_data.py lines 79-85)

pandas `.std()` uses the sample estimator (ddof = 1): the denominator is
n - 1.  Exponentiation `**` with a real exponent and the square root force
ℝ here.  numpy float64 semantics at the singular points is modelled
explicitly: `cagr_code`/`cagr_update` return `none` where numpy produces
NaN (negative base, fractional exponent — the integral-exponent corner of
numpy `**` never arises in the theorems below), and `pyDiv` returns the
IEEE-754 values numpy float64 division produces at a zero denominator
(inf, -inf or nan, never a raised error). -/

/-- Arithmetic mean of a series, `xs.sum / len(xs)`. -/
noncomputable def meanR (xs : List ℝ) : ℝ := xs.sum / xs.length

/-- pandas sample variance (ddof = 1): squared deviations over n - 1. -/
noncomputable def sampleVar (xs : List ℝ) : ℝ :=
  ((xs.map (fun x => (x - meanR xs) ^ 2)).sum) / ((xs.length : ℝ) - 1)

/-- pandas `.std()`: square root of the ddof = 1 sample variance. -/
noncomputable def sampleStd (xs : List ℝ) : ℝ := Real.sqrt (sampleVar xs)

/-- `.pct_change().dropna()` on a real-valued series (src/main.py line 60). -/
noncomputable def pctChangeR (xs : List ℝ) : List ℝ :=
  List.zipWith (fun a b => b / a - 1) xs xs.tail

/-- src/main.py line 92 core: `growth ** (252 / N) - 1` on numpy float64.
`none` models numpy's NaN for a negative base with the fractional
exponents arising here; a zero base yields the ordinary number -1 since
`0.0 ** positive == 0.0`. -/
noncomputable def cagr_code (g : ℝ) (N : ℕ) : Option ℝ :=
  if 0 ≤ g then some (g ^ ((252:ℝ) / N) - 1) else none

/-- src/main.py line 92:
`(portfolio_values.iloc[-1] / portfolio_values.iloc[0]) ** (252 / len(portfolio_returns)) - 1`,
where `len(portfolio_returns) = len(portfolio_values) - 1`. -/
noncomputable def cagrMain (pv : List ℝ) : Option ℝ :=
  cagr_code (pv.getLastD 0 / pv.headD 0) (pv.length - 1)

/-- src/update_data.py line 83: `cum_return[-1] ** (1 / 3) - 1` — the
exponent is the hard-coded 1/3, independent of the series length. -/
noncomputable def cagr_update (g : ℝ) : Option ℝ :=
  if 0 ≤ g then some (g ^ ((1:ℝ) / 3) - 1) else none

/-- src/main.py line 93: `portfolio_returns.std() * np.sqrt(252)`. -/
noncomputable def volatilityMain (pv : List ℝ) : ℝ :=
  sampleStd (pctChangeR pv) * Real.sqrt 252

/-- The observable value of a numpy float64 expression: an ordinary finite
number, one of the IEEE infinities, or NaN. -/
inductive PyVal
  | fin (x : ℝ)
  | inf
  | ninf
  | nan

/-- numpy float64 division: at a zero denominator it produces inf, -inf or
nan according to the numerator's sign (with a RuntimeWarning, not an
error); otherwise the ordinary quotient. -/
noncomputable def pyDiv (x y : ℝ) : PyVal :=
  if y = 0 then (if 0 < x then .inf else if x < 0 then .ninf else .nan)
  else .fin (x / y)

/-- src/main.py line 94: `sharpe = cagr / volatility` — the plain quotient
with no risk-free-rate subtraction and no guard on zero volatility. -/
noncomputable def sharpeMain (pv : List ℝ) : PyVal :=
  match cagrMain pv with
  | some c => pyDiv c (volatilityMain pv)
  | none => .nan

/-! ## C3 -/

/-- C3 counterexample.  The claim states that a non-positive terminal
growth factor makes the CAGR computation fail with a DomainError or a
domain-undefined sentinel, never a numeric value, and that the exponent is
always 252/N.  The code has no such guard: at terminal growth factor 0 the
line-92 computation returns the ordinary number 0^(252/504) - 1 = -1; and
src/update_data.py line 83 raises to the hard-coded power 1/3, so at the
claim's own scenario (factor 2.0, N = 504) it disagrees with the 252/N
formula. -/
theorem C3_cex :
    cagr_code 0 504 = some (-1) ∧ cagr_update 2 ≠ cagr_code 2 504 := by
  constructor
  · rw [cagr_code, if_pos (le_refl 0), Real.zero_rpow (by norm_num)]
    norm_num
  · have hlt : (2:ℝ) ^ ((1:ℝ)/3) < 2 ^ ((252:ℝ)/((504:ℕ):ℝ)) := by
      rw [show ((252:ℝ)/((504:ℕ):ℝ)) = 1/2 by norm_num]
      exact (Real.rpow_lt_rpow_left_iff (by norm_num)).mpr (by norm_num)
    rw [cagr_update, cagr_code, if_pos (by norm_num : (0:ℝ) ≤ 2),
      if_pos (by norm_num : (0:ℝ) ≤ 2)]
    intro h
    have h2 := Option.some.inj h
    have : (2:ℝ) ^ ((1:ℝ)/3) = 2 ^ ((252:ℝ)/((504:ℕ):ℝ)) := by linarith
    linarith [hlt, this]

/-- C3 amended: src/main.py computes CAGR = growth^(252/N) - 1 for a
positive terminal growth factor (terminal factor 2.0 over 504 trading days
gives sqrt 2 - 1 ≈ 0.4142), but a non-positive terminal factor is NOT
signaled: a zero factor yields the ordinary numeric value -1 (and a
negative one yields numpy NaN); src/update_data.py uses the hard-coded
exponent 1/3 instead of 252/N. -/
theorem C3_cagr_amended (g : ℝ) (N : ℕ) (hN : N ≠ 0) :
    (0 < g → cagr_code g N = some (g ^ ((252:ℝ) / N) - 1)) ∧
    cagr_code 0 N = some (-1) ∧
    cagr_code 2 504 = some (Real.sqrt 2 - 1) ∧
    ((0.4142:ℝ) < Real.sqrt 2 - 1 ∧ Real.sqrt 2 - 1 < 0.41422) := by
  refine ⟨fun hg => by rw [cagr_code, if_pos hg.le], ?_, ?_, ?_, ?_⟩
  · have hne : ((252:ℝ) / N) ≠ 0 := by
      apply div_ne_zero (by norm_num)
      exact_mod_cast hN
    rw [cagr_code, if_pos (le_refl 0), Real.zero_rpow hne]
    norm_num
  · rw [cagr_code, if_pos (by norm_num : (0:ℝ) ≤ 2),
      show ((252:ℝ)/((504:ℕ):ℝ)) = 1/2 by norm_num, ← Real.sqrt_eq_rpow 2]
  · nlinarith [Real.sq_sqrt (by norm_num : (0:ℝ) ≤ 2), Real.sqrt_nonneg 2]
  · nlinarith [Real.sq_sqrt (by norm_num : (0:ℝ) ≤ 2), Real.sqrt_nonneg 2]

/-- C3 amended claim at the concrete scenario N = 504: terminal factor 2.0
yields sqrt 2 - 1, and terminal factor 0 yields the numeric -1. -/
theorem C3_cagr_amended_witness :
    cagr_code 2 504 = some (Real.sqrt 2 - 1) ∧ cagr_code 0 504 = some (-1) :=
  ⟨(C3_cagr_amended 2 504 (by norm_num)).2.2.1, (C3_cagr_amended 2 504 (by norm_num)).2.1⟩

/-! ## C4 -/

theorem vol_124 : volatilityMain [1, 2, 4] = 0 := by
  have hret : pctChangeR [1, 2, 4] = [1, 1] := by
    norm_num [pctChangeR]
  have hvar : sampleVar [1, 1] = 0 := by
    norm_num [sampleVar, meanR]
  rw [volatilityMain, hret, sampleStd, hvar, Real.sqrt_zero, zero_mul]

theorem cagr_124 : cagrMain [1, 2, 4] = some ((4:ℝ) ^ ((252:ℝ)/((2:ℕ):ℝ)) - 1) := by
  have hg : (([1, 2, 4] : List ℝ).getLastD 0 / ([1, 2, 4] : List ℝ).headD 0) = 4 := by
    norm_num [List.getLastD, List.headD]
  rw [cagrMain, hg]
  rw [show ([1, 2, 4] : List ℝ).length - 1 = 2 by rfl]
  rw [cagr_code, if_pos (by norm_num : (0:ℝ) ≤ 4)]

theorem cagr_124_pos : (0:ℝ) < (4:ℝ) ^ ((252:ℝ)/((2:ℕ):ℝ)) - 1 := by
  have h1 : (1:ℝ) < (4:ℝ) ^ ((252:ℝ)/((2:ℕ):ℝ)) :=
    (Real.one_lt_rpow_iff_of_pos (by norm_num)).mpr (Or.inl ⟨by norm_num, by norm_num⟩)
  linarith

/-- C4 counterexample.  The claim states that a zero annualized volatility
is signaled as a distinct error condition rather than returning infinity
or an ordinary value.  src/main.py line 94 divides unconditionally: on the
constant-return value series [1, 2, 4] the volatility is 0 and the Sharpe
ratio comes out as numpy float64 +infinity — no error is raised. -/
theorem C4_cex : sharpeMain [1, 2, 4] = PyVal.inf := by
  unfold sharpeMain
  rw [cagr_124]
  show pyDiv _ (volatilityMain [1, 2, 4]) = _
  rw [vol_124, pyDiv, if_pos rfl, if_pos cagr_124_pos]

/-- C4 amended: Sharpe is CAGR / annualized volatility with no
risk-free-rate subtraction (the quotient's numerator is exactly the CAGR
value), and at zero volatility the code returns IEEE infinity (positive
CAGR case) rather than signaling an error. -/
theorem C4_sharpe_amended (pv : List ℝ) (c : ℝ) (hc : cagrMain pv = some c) :
    (volatilityMain pv ≠ 0 → sharpeMain pv = PyVal.fin (c / volatilityMain pv)) ∧
    (volatilityMain pv = 0 → 0 < c → sharpeMain pv = PyVal.inf) := by
  constructor
  · intro hv
    unfold sharpeMain
    rw [hc]
    show pyDiv c (volatilityMain pv) = _
    rw [pyDiv, if_neg hv]
  · intro hv hcpos
    unfold sharpeMain
    rw [hc]
    show pyDiv c (volatilityMain pv) = _
    rw [pyDiv, if_pos hv, if_pos hcpos]

/-- C4 amended claim at the concrete input [1, 2, 4]: volatility is zero
and the Sharpe computation returns infinity, not an error. -/
theorem C4_sharpe_amended_witness :
    volatilityMain [(1:ℝ), 2, 4] = 0 ∧ sharpeMain [(1:ℝ), 2, 4] = PyVal.inf :=
  ⟨vol_124, (C4_sharpe_amended [(1:ℝ), 2, 4] _ cagr_124).2 vol_124 cagr_124_pos⟩

/-! ## C7 -/

/-- The rolling-window Sharpe value on one window:
`(mean * 252) / (std * sqrt(252))`, sharing `sampleStd` with the
whole-period volatility (same ddof = 1 estimator). -/
noncomputable def sharpeOfWindow (w : List ℝ) : ℝ :=
  (meanR w * 252) / (sampleStd w * Real.sqrt 252)

/-- src/main.py lines 163-166:
`(returns.rolling(W).mean() * 252) / (returns.rolling(W).std() * np.sqrt(252))`.
pandas emits NaN (here `none`) for the first W-1 positions and otherwise
the statistic of the trailing window `returns[t-W+1..t]`. -/
noncomputable def rollingSharpe (W : ℕ) (xs : List ℝ) : List (Option ℝ) :=
  (List.range xs.length).map fun t =>
    if t + 1 < W then none
    else some (sharpeOfWindow ((xs.drop (t + 1 - W)).take W))

/-- C7: the rolling Sharpe output is aligned to the input (same length);
the first W-1 entries are the "not available" marker; and every entry
t ≥ W-1 is (mean of returns[t-W+1..t] * 252) / (sampleStd of the same
window * sqrt 252), the window having exactly W elements and the standard
deviation being the same ddof = 1 sample estimator used by the
whole-period volatility. -/
theorem C7_rolling_sharpe (xs : List ℝ) (W t : ℕ) (ht : t < xs.length) :
    (rollingSharpe W xs).length = xs.length ∧
    (t + 1 < W → (rollingSharpe W xs).get? t = some none) ∧
    (W ≤ t + 1 →
      ((xs.drop (t + 1 - W)).take W).length = W ∧
      (rollingSharpe W xs).get? t =
        some (some ((meanR ((xs.drop (t + 1 - W)).take W) * 252) /
          (sampleStd ((xs.drop (t + 1 - W)).take W) * Real.sqrt 252)))) := by
  have hget : (rollingSharpe W xs).get? t =
      some (if t + 1 < W then none
        else some (sharpeOfWindow ((xs.drop (t + 1 - W)).take W))) := by
    rw [rollingSharpe, List.get?_map, List.get?_range ht]
    rfl
  refine ⟨by rw [rollingSharpe, List.length_map, List.length_range], ?_, ?_⟩
  · intro hlt
    rw [hget, if_pos hlt]
  · intro hge
    constructor
    · rw [List.length_take, List.length_drop]
      omega
    · rw [hget, if_neg (by omega)]
      rfl

/-- C7 at the spec's concrete scenario, window 3 on a 5-point series:
entries 0 and 1 are the marker and entry 4 is the defined ratio over the
3-element trailing window [4, 8, 16]. -/
theorem C7_rolling_sharpe_witness :
    (rollingSharpe 3 [(1:ℝ), 2, 4, 8, 16]).length = 5 ∧
    (rollingSharpe 3 [(1:ℝ), 2, 4, 8, 16]).get? 0 = some none ∧
    (rollingSharpe 3 [(1:ℝ), 2, 4, 8, 16]).get? 1 = some none ∧
    ([(4:ℝ), 8, 16].length = 3 ∧
      (rollingSharpe 3 [(1:ℝ), 2, 4, 8, 16]).get? 4 =
        some (some ((meanR [(4:ℝ), 8, 16] * 252) /
          (sampleStd [(4:ℝ), 8, 16] * Real.sqrt 252)))) :=
  ⟨(C7_rolling_sharpe [(1:ℝ), 2, 4, 8, 16] 3 0 (by simp)).1,
   (C7_rolling_sharpe [(1:ℝ), 2, 4, 8, 16] 3 0 (by simp)).2.1 (by norm_num),
   (C7_rolling_sharpe [(1:ℝ), 2, 4, 8, 16] 3 1 (by simp)).2.1 (by norm_num),
   (C7_rolling_sharpe [(1:ℝ), 2, 4, 8, 16] 3 4 (by simp)).2.2 (by norm_num)⟩

end ESG
